import Mathlib

/-!
Verification of the favilla Vulkan helper library.

Shallow embedding of the parts of the code relevant to the checked
properties:
* `src/favilla/src/cleanup_queue.rs` (delayed resource destruction),
* `src/favilla/src/linear_allocator.rs` (bump allocator),
* `src/favilla/src/push_buffer.rs` (growable CPU-side buffer with passes),
* `src/favilla/src/buffer.rs` (typed buffer copy),
* `src/favilla-examples/src/bin/multipipe.rs` (frame-loop staleness
  recovery).

Vulkan handles (`vk::Buffer`, `vk::DeviceMemory`, command buffers) are
modelled as natural numbers; GPU side effects (destroy calls, recorded
copy commands) are made explicit as returned lists.  Rust panics
(division by zero, indexing) are modelled by `Option`/explicit guards.
-/

namespace Favilla

/-! ## Cleanup queue (`cleanup_queue.rs`)

`QueuedFrame` holds the buffers and memory handles queued for one slot;
`CleanupQueue` is a ring of `num_frames` such slots.  `tick` destroys the
bucket at the current slot (returning the destroyed handles, in the order
the Rust code issues the destroy calls) and advances the slot index.
-/

structure QueuedFrame where
  buffers : List Nat
  memory : List Nat
  deriving Repr, DecidableEq

def emptyFrame : QueuedFrame := { buffers := [], memory := [] }

structure CleanupQueue where
  frame_queue : List QueuedFrame
  current_frame_index : Nat
  deriving Repr, DecidableEq

/-- Replace the element at position `i` (no-op when out of range). -/
def listModify {α : Type} (f : α → α) : Nat → List α → List α
  | _, [] => []
  | 0, x :: xs => f x :: xs
  | n + 1, x :: xs => x :: listModify f n xs

namespace CleanupQueue

def new (num_frames : Nat) : CleanupQueue :=
  { frame_queue := List.replicate num_frames emptyFrame, current_frame_index := 0 }

def num_frames (q : CleanupQueue) : Nat := q.frame_queue.length

/-- `(self.current_frame_index + self.num_frames() - 1) % self.num_frames()`. -/
def get_current_frame_index (q : CleanupQueue) : Nat :=
  (q.current_frame_index + q.num_frames - 1) % q.num_frames

def queue_buffer (q : CleanupQueue) (buffer : Nat) : CleanupQueue :=
  let i := q.get_current_frame_index
  { q with frame_queue := listModify (fun fr => { fr with buffers := fr.buffers ++ [buffer] }) i q.frame_queue }

def queue_memory (q : CleanupQueue) (mem : Nat) : CleanupQueue :=
  let i := q.get_current_frame_index
  { q with frame_queue := listModify (fun fr => { fr with memory := fr.memory ++ [mem] }) i q.frame_queue }

/-- `tick` destroys the bucket at the current slot and advances the index.
Returns the new queue together with the destroyed buffer handles and the
destroyed memory handles (the order `QueuedFrame::destroy` issues them). -/
def tick (q : CleanupQueue) : CleanupQueue × List Nat × List Nat :=
  let i := q.current_frame_index
  let fr := q.frame_queue.getD i emptyFrame
  ({ frame_queue := listModify (fun _ => emptyFrame) i q.frame_queue,
     current_frame_index := (q.current_frame_index + 1) % q.num_frames },
   fr.buffers, fr.memory)

end CleanupQueue

/-- Operations a client may perform on a cleanup queue between frames. -/
inductive CleanupOp where
  | queueBuf (b : Nat)
  | queueMem (m : Nat)
  | tick
  deriving Repr, DecidableEq

/-- Run a sequence of operations, collecting for each `tick` the list of
buffer handles it destroyed (in order). -/
def runCollect (q : CleanupQueue) : List CleanupOp → CleanupQueue × List (List Nat)
  | [] => (q, [])
  | CleanupOp.queueBuf b :: rest => runCollect (q.queue_buffer b) rest
  | CleanupOp.queueMem m :: rest => runCollect (q.queue_memory m) rest
  | CleanupOp.tick :: rest =>
    let step := q.tick
    let next := runCollect step.1 rest
    (next.1, step.2.1 :: next.2)

/-! ## Linear allocator (`linear_allocator.rs`) -/

structure LinearAllocator where
  memory : Nat
  size : Nat
  free_section_start : Nat
  deriving Repr, DecidableEq

structure SubAllocation where
  memory : Nat
  offset : Nat
  size : Nat
  deriving Repr, DecidableEq

inductive SubAllocationError where
  | OutOfMemory
  deriving Repr, DecidableEq

structure MemoryRequirements where
  size : Nat
  alignment : Nat
  deriving Repr, DecidableEq

/-- `get_aligned_offset`.  The Rust code computes `offset % alignment`
with no zero guard, so `alignment = 0` hits a division-by-zero panic,
modelled as `none`. -/
def get_aligned_offset (offset alignment : Nat) : Option Nat :=
  if alignment = 0 then none
  else
    let misalignment := offset % alignment
    let padding := if misalignment = 0 then 0 else alignment - misalignment
    some (offset + padding)

namespace LinearAllocator

/-- `LinearAllocator::allocate`.  `none` models the panic reached through
`get_aligned_offset` when the alignment is zero. -/
def allocate (a : LinearAllocator) (memory_req : MemoryRequirements) :
    Option (LinearAllocator × Except SubAllocationError SubAllocation) :=
  match get_aligned_offset a.free_section_start memory_req.alignment with
  | none => none
  | some offset =>
    let new_start := offset + memory_req.size
    if new_start ≤ a.size then
      some ({ a with free_section_start := new_start },
            Except.ok { memory := a.memory, offset := offset, size := memory_req.size })
    else
      some (a, Except.error SubAllocationError.OutOfMemory)

end LinearAllocator

/-! ## Push buffer (`push_buffer.rs`)

`data` is the backing storage (`vec![Default::default(); capacity]`
keeps every element initialised, so `capacity` is `data.length`);
`length` is the reported logical length. -/

structure PushBuffer (T : Type) where
  data : List T
  length : Nat
  deriving Repr, DecidableEq

structure PushBufferPass (T : Type) where
  push_buffer : PushBuffer T
  index : Nat
  deriving Repr, DecidableEq

namespace PushBuffer

def len {T : Type} (b : PushBuffer T) : Nat := b.length

def capacity {T : Type} (b : PushBuffer T) : Nat := b.data.length

end PushBuffer

namespace PushBufferPass

/-- `PushBufferPass::new`: sets the buffer's reported length to
`start_index` immediately. -/
def new {T : Type} (push_buffer : PushBuffer T) (start_index : Nat) : PushBufferPass T :=
  { push_buffer := { push_buffer with length := start_index }, index := start_index }

def capacity {T : Type} (p : PushBufferPass T) : Nat := p.push_buffer.data.length

/-- `PushBufferPass::push`: grows the backing storage to twice the
capacity (`resize_with`, padding with `Default::default()`) when the
cursor sits at the end, then writes the element and advances the cursor. -/
def push {T : Type} [Inhabited T] (p : PushBufferPass T) (element : T) : PushBufferPass T :=
  let p :=
    if p.index = p.capacity then
      { p with push_buffer :=
          { p.push_buffer with
            data := p.push_buffer.data ++ List.replicate p.capacity default } }
    else p
  { p with
    push_buffer := { p.push_buffer with data := p.push_buffer.data.set p.index element },
    index := p.index + 1 }

/-- `PushBufferPass::finish`: commits the cursor as the logical length. -/
def finish {T : Type} (p : PushBufferPass T) : PushBuffer T :=
  { p.push_buffer with length := p.index }

end PushBufferPass

/-- `PushBuffer::start_pass`: rejects `start_index >= capacity`. -/
def PushBuffer.start_pass {T : Type} (b : PushBuffer T) (start_index : Nat) :
    Except Unit (PushBufferPass T) :=
  if start_index ≥ b.capacity then Except.error ()
  else Except.ok (PushBufferPass.new b start_index)

/-- Push a list of elements one after the other. -/
def pushMany {T : Type} [Inhabited T] (p : PushBufferPass T) (es : List T) : PushBufferPass T :=
  es.foldl PushBufferPass.push p

/-! ## Typed buffer copy (`buffer.rs`)

`VulkanBuffer::copy` guards the element count against both lengths and
otherwise records a `cmd_copy_buffer` command; the recorded command list
is made explicit. -/

structure VulkanBuffer where
  buffer : Nat
  device_size : Nat
  length : Nat
  deriving Repr, DecidableEq

inductive BufferCopyError where
  | SpecifiedLengthExceedsBounds
  deriving Repr, DecidableEq

structure RecordedCopy where
  src_buffer : Nat
  dst_buffer : Nat
  src_offset : Nat
  dst_offset : Nat
  size : Nat
  deriving Repr, DecidableEq

/-- `VulkanBuffer::copy`.  `elem_size` stands for
`std::mem::size_of::<T>()`; `commands` is the command buffer's recorded
command list, returned unchanged on error. -/
def VulkanBuffer.copy (src : VulkanBuffer) (commands : List RecordedCopy)
    (dst : VulkanBuffer) (src_offset dst_offset length elem_size : Nat) :
    Except BufferCopyError Unit × List RecordedCopy :=
  if src.length < length ∨ dst.length < length then
    (Except.error BufferCopyError.SpecifiedLengthExceedsBounds, commands)
  else
    (Except.ok (),
     commands ++ [{ src_buffer := src.buffer, dst_buffer := dst.buffer,
                    src_offset := src_offset, dst_offset := dst_offset,
                    size := length * elem_size }])

/-! ## Frame-loop staleness recovery (`multipipe.rs`)

The acquire loop of the event-loop closure, driven by an oracle listing
the results the successive `acquire_next_image` calls return.  Each loop
iteration either attempts an acquire (consuming one oracle entry) or
rebuilds the swapchain; the produced event trace records which.  An
exhausted oracle ends the loop with `starved` (the real call would
block), a non-stale error with `fatal` (the code panics). -/

inductive AcquireResult where
  | ok (present_index : Nat)
  | errOutOfDate
  | errSuboptimal
  | otherError
  deriving Repr, DecidableEq

def AcquireResult.isStale : AcquireResult → Bool
  | AcquireResult.errOutOfDate => true
  | AcquireResult.errSuboptimal => true
  | _ => false

def AcquireResult.isOtherError : AcquireResult → Bool
  | AcquireResult.otherError => true
  | _ => false

inductive LoopEvent where
  | acquireAttempt (r : AcquireResult)
  | rebuild
  deriving Repr, DecidableEq

inductive LoopOutcome where
  | presentImage (present_index : Nat)
  | fatal
  | starved
  deriving Repr, DecidableEq

/-- Iterations with `recreate_swapchain = false`: attempt an acquire; on
staleness set the local `recreate` flag, which triggers a rebuild in the
same iteration, then loop with `recreate_swapchain = false`. -/
def acquireLoopCore : List AcquireResult → List LoopEvent × LoopOutcome
  | [] => ([], LoopOutcome.starved)
  | r :: rest =>
    match r with
    | AcquireResult.ok i => ([LoopEvent.acquireAttempt r], LoopOutcome.presentImage i)
    | AcquireResult.errOutOfDate =>
      let next := acquireLoopCore rest
      (LoopEvent.acquireAttempt r :: LoopEvent.rebuild :: next.1, next.2)
    | AcquireResult.errSuboptimal =>
      let next := acquireLoopCore rest
      (LoopEvent.acquireAttempt r :: LoopEvent.rebuild :: next.1, next.2)
    | AcquireResult.otherError => ([LoopEvent.acquireAttempt r], LoopOutcome.fatal)

/-- The full `let present_index = loop { ... }`: when the frame starts
with `recreate_swapchain = true` (set by the previous present), the first
iteration skips the acquire, rebuilds and clears the flag. -/
def acquireLoop (recreate_swapchain : Bool) (results : List AcquireResult) :
    List LoopEvent × LoopOutcome :=
  if recreate_swapchain then
    let next := acquireLoopCore results
    (LoopEvent.rebuild :: next.1, next.2)
  else acquireLoopCore results

/-- No two consecutive acquire attempts without a rebuild in between. -/
def noAdjacentAcquires : List LoopEvent → Bool
  | LoopEvent.acquireAttempt _ :: LoopEvent.acquireAttempt _ :: _ => false
  | _ :: rest => noAdjacentAcquires rest
  | [] => true

inductive PresentResult where
  | okOptimal
  | okSuboptimal
  | errOutOfDate
  | errSuboptimal
  | otherError
  deriving Repr, DecidableEq

/-- The `queue_present` match: `some flag` is the value of
`recreate_swapchain` after the match, `none` models the panic. -/
def handlePresent (recreate_swapchain : Bool) : PresentResult → Option Bool
  | PresentResult.okOptimal => some recreate_swapchain
  | PresentResult.okSuboptimal => some true
  | PresentResult.errOutOfDate => some true
  | PresentResult.errSuboptimal => some true
  | PresentResult.otherError => none

/-! ## Helper lemmas -/

theorem listModify_length {α : Type} (f : α → α) (i : Nat) (l : List α) :
    (listModify f i l).length = l.length := by
  induction l generalizing i with
  | nil => cases i <;> rfl
  | cons x xs ih =>
    cases i with
    | zero => rfl
    | succ n => simpa [listModify] using ih n

theorem getD_listModify_self {α : Type} (f : α → α) (i : Nat) (l : List α) (d : α)
    (h : i < l.length) : (listModify f i l).getD i d = f (l.getD i d) := by
  induction l generalizing i with
  | nil => simp at h
  | cons x xs ih =>
    cases i with
    | zero => rfl
    | succ n => simpa [listModify] using ih n (by simpa using h)

theorem getD_listModify_other {α : Type} (f : α → α) (i j : Nat) (l : List α) (d : α)
    (h : j ≠ i) : (listModify f i l).getD j d = l.getD j d := by
  induction l generalizing i j with
  | nil => cases i <;> rfl
  | cons x xs ih =>
    cases i with
    | zero =>
      cases j with
      | zero => exact absurd rfl h
      | succ m => rfl
    | succ n =>
      cases j with
      | zero => rfl
      | succ m => simpa [listModify] using ih n m (by omega)

theorem getD_listModify_cases {α : Type} (f : α → α) (i j : Nat) (l : List α) (d : α) :
    (listModify f i l).getD j d = l.getD j d ∨
    (listModify f i l).getD j d = f (l.getD j d) := by
  induction l generalizing i j with
  | nil => cases i <;> exact Or.inl rfl
  | cons x xs ih =>
    cases i with
    | zero =>
      cases j with
      | zero => exact Or.inr rfl
      | succ m => exact Or.inl rfl
    | succ n =>
      cases j with
      | zero => exact Or.inl rfl
      | succ m => simpa [listModify] using ih n m

theorem getD_of_length_le {α : Type} (l : List α) (d : α) (i : Nat)
    (h : l.length ≤ i) : l.getD i d = d := by
  induction l generalizing i with
  | nil => cases i <;> rfl
  | cons x xs ih =>
    cases i with
    | zero => simp at h
    | succ n => simpa using ih n (by simpa using h)

/-- With a positive alignment, `get_aligned_offset` matches the closed
formula `offset + ((alignment - offset % alignment) % alignment)`. -/
theorem get_aligned_offset_eq (offset alignment : Nat) (h : 0 < alignment) :
    get_aligned_offset offset alignment =
      some (offset + ((alignment - offset % alignment) % alignment)) := by
  rw [get_aligned_offset, if_neg (Nat.pos_iff_ne_zero.mp h)]
  by_cases hm : offset % alignment = 0
  · simp [hm, Nat.mod_self]
  · have hlt : alignment - offset % alignment < alignment :=
      Nat.sub_lt h (Nat.pos_of_ne_zero hm)
    simp [hm, Nat.mod_eq_of_lt hlt]

/-! ## Claim theorems: linear allocator -/

/-- Claim C2: with a positive alignment, `allocate` computes
`aligned = cursor + ((alignment - cursor % alignment) % alignment)`;
when `aligned + size ≤ total_size` it returns a sub-allocation at offset
`aligned` and advances the cursor to `aligned + size`, otherwise it
returns `OutOfMemory` and leaves the allocator state unchanged. -/
theorem allocate_correct (a : LinearAllocator) (req : MemoryRequirements)
    (halign : 0 < req.alignment) :
    (a.free_section_start
        + ((req.alignment - a.free_section_start % req.alignment) % req.alignment)
        + req.size ≤ a.size →
      a.allocate req = some
        ({ a with free_section_start :=
            a.free_section_start
              + ((req.alignment - a.free_section_start % req.alignment) % req.alignment)
              + req.size },
         Except.ok
           { memory := a.memory,
             offset := a.free_section_start
               + ((req.alignment - a.free_section_start % req.alignment) % req.alignment),
             size := req.size })) ∧
    (a.size < a.free_section_start
        + ((req.alignment - a.free_section_start % req.alignment) % req.alignment)
        + req.size →
      a.allocate req = some (a, Except.error SubAllocationError.OutOfMemory)) := by
  rw [LinearAllocator.allocate, get_aligned_offset_eq _ _ halign]
  constructor
  · intro h
    simp only [if_pos h]
  · intro h
    simp only [if_neg (by omega : ¬ (a.free_section_start
      + ((req.alignment - a.free_section_start % req.alignment) % req.alignment)
      + req.size ≤ a.size))]

theorem allocate_correct_witness :
    LinearAllocator.allocate { memory := 0, size := 128, free_section_start := 0 }
        { size := 10, alignment := 16 } =
      some ({ memory := 0, size := 128, free_section_start := 10 },
            Except.ok { memory := 0, offset := 0, size := 10 }) := by
  have h := allocate_correct { memory := 0, size := 128, free_section_start := 0 }
    { size := 10, alignment := 16 } (by decide)
  exact h.1 (by decide)

/-- Claim C9: `allocate` returns a value (rather than panicking) for
every request with positive alignment, while a request with alignment 0
reaches the unguarded `offset % alignment` and panics (modelled as
`none`). -/
theorem allocate_total_iff_alignment_pos :
    (∀ (a : LinearAllocator) (req : MemoryRequirements), 0 < req.alignment →
      (a.allocate req).isSome = true) ∧
    (∀ (a : LinearAllocator) (req : MemoryRequirements), req.alignment = 0 →
      a.allocate req = none) := by
  constructor
  · intro a req h
    rw [LinearAllocator.allocate, get_aligned_offset_eq _ _ h]
    by_cases hle : a.free_section_start
        + ((req.alignment - a.free_section_start % req.alignment) % req.alignment)
        + req.size ≤ a.size
    · simp only [if_pos hle, Option.isSome_some]
    · simp only [if_neg hle, Option.isSome_some]
  · intro a req h
    rw [LinearAllocator.allocate, get_aligned_offset, if_pos h]

theorem allocate_total_iff_alignment_pos_witness :
    ((LinearAllocator.allocate { memory := 0, size := 128, free_section_start := 0 }
        { size := 10, alignment := 16 }).isSome = true) ∧
    (LinearAllocator.allocate { memory := 0, size := 128, free_section_start := 0 }
        { size := 10, alignment := 0 } = none) :=
  ⟨allocate_total_iff_alignment_pos.1 _ _ (by decide),
   allocate_total_iff_alignment_pos.2 _ _ rfl⟩

/-- Claim C4 (counterexample): on a fresh allocator of size 128, after
`allocate(10, 16)` returns offset 0, the call `allocate(50, 4)` returns
offset 12 and cursor 62 — not offset 16 and cursor 66 as claimed. -/
theorem allocator_trace_counterexample :
    LinearAllocator.allocate { memory := 0, size := 128, free_section_start := 0 }
        { size := 10, alignment := 16 } =
      some ({ memory := 0, size := 128, free_section_start := 10 },
            Except.ok { memory := 0, offset := 0, size := 10 }) ∧
    LinearAllocator.allocate { memory := 0, size := 128, free_section_start := 10 }
        { size := 50, alignment := 4 } =
      some ({ memory := 0, size := 128, free_section_start := 62 },
            Except.ok { memory := 0, offset := 12, size := 50 }) ∧
    ¬ (LinearAllocator.allocate { memory := 0, size := 128, free_section_start := 10 }
        { size := 50, alignment := 4 } =
      some ({ memory := 0, size := 128, free_section_start := 66 },
            Except.ok { memory := 0, offset := 16, size := 50 })) := by
  refine ⟨rfl, rfl, ?_⟩
  intro h
  simp [LinearAllocator.allocate, get_aligned_offset] at h

/-- Claim C4 (amended): on a fresh allocator of size 128, the sequence
`allocate(10, 16); allocate(50, 4); allocate(70, 4)` returns offsets 0
and 12, leaves the cursor at 62 after the first two calls, and the third
call fails with `OutOfMemory` (since the aligned offset 64 plus 70
exceeds 128). -/
theorem allocator_trace_amended :
    LinearAllocator.allocate { memory := 0, size := 128, free_section_start := 0 }
        { size := 10, alignment := 16 } =
      some ({ memory := 0, size := 128, free_section_start := 10 },
            Except.ok { memory := 0, offset := 0, size := 10 }) ∧
    LinearAllocator.allocate { memory := 0, size := 128, free_section_start := 10 }
        { size := 50, alignment := 4 } =
      some ({ memory := 0, size := 128, free_section_start := 62 },
            Except.ok { memory := 0, offset := 12, size := 50 }) ∧
    LinearAllocator.allocate { memory := 0, size := 128, free_section_start := 62 }
        { size := 70, alignment := 4 } =
      some ({ memory := 0, size := 128, free_section_start := 62 },
            Except.error SubAllocationError.OutOfMemory) :=
  ⟨rfl, rfl, rfl⟩

/-! ## Claim theorems: push buffer -/

theorem push_length_eq {T : Type} [Inhabited T] (p : PushBufferPass T) (e : T) :
    (p.push e).push_buffer.length = p.push_buffer.length := by
  rw [PushBufferPass.push]
  split <;> rfl

theorem push_index_eq {T : Type} [Inhabited T] (p : PushBufferPass T) (e : T) :
    (p.push e).index = p.index + 1 := by
  rw [PushBufferPass.push]
  split <;> rfl

theorem pushMany_length {T : Type} [Inhabited T] (es : List T) (p : PushBufferPass T) :
    (pushMany p es).push_buffer.length = p.push_buffer.length := by
  induction es generalizing p with
  | nil => rfl
  | cons e es ih =>
    show (pushMany (p.push e) es).push_buffer.length = p.push_buffer.length
    rw [ih, push_length_eq]

theorem pushMany_index {T : Type} [Inhabited T] (es : List T) (p : PushBufferPass T) :
    (pushMany p es).index = p.index + es.length := by
  induction es generalizing p with
  | nil => rfl
  | cons e es ih =>
    show (pushMany (p.push e) es).index = p.index + (e :: es).length
    rw [ih, push_index_eq]
    simp only [List.length_cons]
    omega

/-- Claim C3 (counterexample): on a buffer of capacity 4,
`start_pass(4)` — i.e. `start_index == capacity` — is rejected with an
error, contradicting the claim that it is permitted. -/
theorem start_pass_at_capacity_counterexample :
    PushBuffer.start_pass (T := Nat) { data := [0, 0, 0, 0], length := 0 } 4 =
      Except.error () ∧
    PushBuffer.capacity (T := Nat) { data := [0, 0, 0, 0], length := 0 } = 4 :=
  ⟨rfl, rfl⟩

/-- Claim C3 (amended): `start_pass(start_index)` returns an error
exactly when `start_index ≥ capacity`; in particular
`start_index == capacity` is rejected, not treated as a pure append. -/
theorem start_pass_error_iff {T : Type} (b : PushBuffer T) (start_index : Nat) :
    b.start_pass start_index = Except.error () ↔ b.capacity ≤ start_index := by
  rw [PushBuffer.start_pass]
  split
  · simpa using by assumption
  · constructor
    · intro h
      exact absurd h (by simp)
    · intro h
      omega

/-- Claim C5: for a pass obtained from `start_pass(start_index)`, the
buffer's reported length is immediately `start_index`; pushing any list
of elements leaves the reported length at `start_index`; and `finish`
after `k` pushes sets the reported length to `start_index + k`. -/
theorem pass_length_semantics {T : Type} [Inhabited T] (b : PushBuffer T)
    (start_index : Nat) (pass : PushBufferPass T)
    (h : b.start_pass start_index = Except.ok pass) :
    pass.push_buffer.length = start_index ∧
    ∀ es : List T,
      (pushMany pass es).push_buffer.length = start_index ∧
      (pushMany pass es).finish.length = start_index + es.length := by
  rw [PushBuffer.start_pass] at h
  split at h
  · exact absurd h (by simp)
  · have hpass : pass = PushBufferPass.new b start_index := by
      cases h
      rfl
    subst hpass
    refine ⟨rfl, fun es => ⟨?_, ?_⟩⟩
    · rw [pushMany_length]
      rfl
    · show (pushMany (PushBufferPass.new b start_index) es).index = start_index + es.length
      rw [pushMany_index]
      rfl

theorem pass_length_semantics_witness :
    (pushMany ({ push_buffer := { data := [0, 0], length := 0 }, index := 0 } :
        PushBufferPass Nat) [7, 8, 9]).push_buffer.length = 0 ∧
    (pushMany ({ push_buffer := { data := [0, 0], length := 0 }, index := 0 } :
        PushBufferPass Nat) [7, 8, 9]).finish.length = 0 + 3 := by
  have h := pass_length_semantics (T := Nat) { data := [0, 0], length := 0 } 0
    { push_buffer := { data := [0, 0], length := 0 }, index := 0 } rfl
  exact ⟨(h.2 [7, 8, 9]).1, (h.2 [7, 8, 9]).2⟩

/-! ## Claim theorems: typed buffer copy -/

/-- Claim C8: `VulkanBuffer::copy` returns the length-mismatch error
exactly when the requested element count exceeds the source's or the
destination's length (independently of the offsets), and on error no
copy command is recorded. -/
theorem copy_length_guard (src dst : VulkanBuffer) (commands : List RecordedCopy)
    (src_offset dst_offset length elem_size : Nat) :
    ((src.copy commands dst src_offset dst_offset length elem_size).1 =
        Except.error BufferCopyError.SpecifiedLengthExceedsBounds ↔
      src.length < length ∨ dst.length < length) ∧
    ((src.copy commands dst src_offset dst_offset length elem_size).1 =
        Except.error BufferCopyError.SpecifiedLengthExceedsBounds →
      (src.copy commands dst src_offset dst_offset length elem_size).2 = commands) := by
  rw [VulkanBuffer.copy]
  by_cases h : src.length < length ∨ dst.length < length
  · rw [if_pos h]
    exact ⟨by simp [h], fun _ => rfl⟩
  · rw [if_neg h]
    exact ⟨by simp [h], fun hcontra => absurd hcontra (by simp)⟩

theorem copy_length_guard_witness :
    (VulkanBuffer.copy { buffer := 1, device_size := 4, length := 1 } []
        { buffer := 2, device_size := 0, length := 0 } 0 0 1 4).1 =
      Except.error BufferCopyError.SpecifiedLengthExceedsBounds ∧
    (VulkanBuffer.copy { buffer := 1, device_size := 4, length := 1 } []
        { buffer := 2, device_size := 0, length := 0 } 0 0 1 4).2 = [] := by
  have h := copy_length_guard { buffer := 1, device_size := 4, length := 1 }
    { buffer := 2, device_size := 0, length := 0 } [] 0 0 1 4
  have he := h.1.mpr (Or.inr (by decide))
  exact ⟨he, h.2 he⟩

/-! ## Claim theorems: cleanup queue -/

namespace CleanupQueue

theorem queue_buffer_current (q : CleanupQueue) (b : Nat) :
    (q.queue_buffer b).current_frame_index = q.current_frame_index := rfl

theorem queue_memory_current (q : CleanupQueue) (m : Nat) :
    (q.queue_memory m).current_frame_index = q.current_frame_index := rfl

theorem queue_buffer_num_frames (q : CleanupQueue) (b : Nat) :
    (q.queue_buffer b).num_frames = q.num_frames := by
  simp [queue_buffer, num_frames, listModify_length]

theorem queue_memory_num_frames (q : CleanupQueue) (m : Nat) :
    (q.queue_memory m).num_frames = q.num_frames := by
  simp [queue_memory, num_frames, listModify_length]

theorem tick_num_frames (q : CleanupQueue) :
    (q.tick).1.num_frames = q.num_frames := by
  simp [tick, num_frames, listModify_length]

end CleanupQueue

/-- Claim C6: one `tick` destroys exactly the buffers and memory handles
held in the bucket at the current slot, leaves that bucket empty, and
advances the current slot index by one modulo the number of slots. -/
theorem tick_semantics (q : CleanupQueue) (hc : q.current_frame_index < q.num_frames) :
    (q.tick).2.1 = (q.frame_queue.getD q.current_frame_index emptyFrame).buffers ∧
    (q.tick).2.2 = (q.frame_queue.getD q.current_frame_index emptyFrame).memory ∧
    (q.tick).1.frame_queue.getD q.current_frame_index emptyFrame = emptyFrame ∧
    (q.tick).1.current_frame_index = (q.current_frame_index + 1) % q.num_frames := by
  refine ⟨rfl, rfl, ?_, rfl⟩
  exact getD_listModify_self (fun _ => emptyFrame) q.current_frame_index q.frame_queue
    emptyFrame hc

theorem tick_semantics_witness :
    (({ frame_queue := [{ buffers := [1], memory := [2] },
                        { buffers := [3], memory := [] }],
        current_frame_index := 0 } : CleanupQueue).tick).2.1 = [1] ∧
    (({ frame_queue := [{ buffers := [1], memory := [2] },
                        { buffers := [3], memory := [] }],
        current_frame_index := 0 } : CleanupQueue).tick).2.2 = [2] ∧
    (({ frame_queue := [{ buffers := [1], memory := [2] },
                        { buffers := [3], memory := [] }],
        current_frame_index := 0 } : CleanupQueue).tick).1.frame_queue.getD 0 emptyFrame =
      emptyFrame ∧
    (({ frame_queue := [{ buffers := [1], memory := [2] },
                        { buffers := [3], memory := [] }],
        current_frame_index := 0 } : CleanupQueue).tick).1.current_frame_index = 1 :=
  tick_semantics
    { frame_queue := [{ buffers := [1], memory := [2] }, { buffers := [3], memory := [] }],
      current_frame_index := 0 } (by decide)

/-- Claim C10: `tick` leaves every bucket other than the current one
unchanged; `queue_buffer` and `queue_memory` append to exactly the
bucket at index `(current + N - 1) % N`, leaving the current slot index
and every other bucket unchanged. -/
theorem frame_effects (q : CleanupQueue) (hc : q.current_frame_index < q.num_frames) :
    (∀ j, j ≠ q.current_frame_index →
      (q.tick).1.frame_queue.getD j emptyFrame = q.frame_queue.getD j emptyFrame) ∧
    (∀ b : Nat,
      (q.queue_buffer b).current_frame_index = q.current_frame_index ∧
      (q.queue_buffer b).frame_queue.getD q.get_current_frame_index emptyFrame =
        { q.frame_queue.getD q.get_current_frame_index emptyFrame with
          buffers := (q.frame_queue.getD q.get_current_frame_index emptyFrame).buffers
            ++ [b] } ∧
      ∀ j, j ≠ q.get_current_frame_index →
        (q.queue_buffer b).frame_queue.getD j emptyFrame =
          q.frame_queue.getD j emptyFrame) ∧
    (∀ m : Nat,
      (q.queue_memory m).current_frame_index = q.current_frame_index ∧
      (q.queue_memory m).frame_queue.getD q.get_current_frame_index emptyFrame =
        { q.frame_queue.getD q.get_current_frame_index emptyFrame with
          memory := (q.frame_queue.getD q.get_current_frame_index emptyFrame).memory
            ++ [m] } ∧
      ∀ j, j ≠ q.get_current_frame_index →
        (q.queue_memory m).frame_queue.getD j emptyFrame =
          q.frame_queue.getD j emptyFrame) := by
  have hN : 0 < q.num_frames := by omega
  have hp : q.get_current_frame_index < q.num_frames := Nat.mod_lt _ hN
  refine ⟨?_, fun b => ⟨rfl, ?_, ?_⟩, fun m => ⟨rfl, ?_, ?_⟩⟩
  · intro j hj
    exact getD_listModify_other _ _ _ _ _ hj
  · exact getD_listModify_self _ _ _ _ hp
  · intro j hj
    exact getD_listModify_other _ _ _ _ _ hj
  · exact getD_listModify_self _ _ _ _ hp
  · intro j hj
    exact getD_listModify_other _ _ _ _ _ hj

theorem frame_effects_witness :
    (({ frame_queue := [{ buffers := [1], memory := [] },
                        { buffers := [], memory := [] }],
        current_frame_index := 0 } : CleanupQueue).tick).1.frame_queue.getD 1 emptyFrame =
      { buffers := [], memory := [] } ∧
    (({ frame_queue := [{ buffers := [1], memory := [] },
                        { buffers := [], memory := [] }],
        current_frame_index := 0 } : CleanupQueue).queue_buffer 7).frame_queue.getD 1
        emptyFrame = { buffers := [7], memory := [] } ∧
    (({ frame_queue := [{ buffers := [1], memory := [] },
                        { buffers := [], memory := [] }],
        current_frame_index := 0 } : CleanupQueue).queue_buffer 7).current_frame_index = 0 ∧
    (({ frame_queue := [{ buffers := [1], memory := [] },
                        { buffers := [], memory := [] }],
        current_frame_index := 0 } : CleanupQueue).queue_memory 9).frame_queue.getD 0
        emptyFrame = { buffers := [1], memory := [] } := by
  have h := frame_effects
    { frame_queue := [{ buffers := [1], memory := [] }, { buffers := [], memory := [] }],
      current_frame_index := 0 } (by decide)
  exact ⟨h.1 1 (by decide), (h.2.1 7).2.1, (h.2.1 7).1, (h.2.2 9).2.2 0 (by decide)⟩

/-! ### Bucket membership helpers for the delay theorem -/

theorem tick_current (q : CleanupQueue) :
    (q.tick).1.current_frame_index = (q.current_frame_index + 1) % q.num_frames := rfl

theorem tick_bucket_self (q : CleanupQueue) (hc : q.current_frame_index < q.num_frames) :
    (q.tick).1.frame_queue.getD q.current_frame_index emptyFrame = emptyFrame :=
  getD_listModify_self _ _ _ _ hc

theorem tick_bucket_other (q : CleanupQueue) (j : Nat)
    (hj : j ≠ q.current_frame_index) :
    (q.tick).1.frame_queue.getD j emptyFrame = q.frame_queue.getD j emptyFrame :=
  getD_listModify_other _ _ _ _ _ hj

theorem mem_queue_buffer_iff (q : CleanupQueue) (b' x : Nat) (j : Nat) (hx : x ≠ b') :
    x ∈ ((q.queue_buffer b').frame_queue.getD j emptyFrame).buffers ↔
      x ∈ (q.frame_queue.getD j emptyFrame).buffers := by
  have heq : (q.queue_buffer b').frame_queue =
      listModify (fun fr => { fr with buffers := fr.buffers ++ [b'] })
        q.get_current_frame_index q.frame_queue := rfl
  rw [heq]
  rcases getD_listModify_cases (fun fr => { fr with buffers := fr.buffers ++ [b'] })
      q.get_current_frame_index j q.frame_queue emptyFrame with h | h
  · rw [h]
  · rw [h]
    simp [hx]

theorem buffers_queue_memory (q : CleanupQueue) (m : Nat) (j : Nat) :
    ((q.queue_memory m).frame_queue.getD j emptyFrame).buffers =
      (q.frame_queue.getD j emptyFrame).buffers := by
  have heq : (q.queue_memory m).frame_queue =
      listModify (fun fr => { fr with memory := fr.memory ++ [m] })
        q.get_current_frame_index q.frame_queue := rfl
  rw [heq]
  rcases getD_listModify_cases (fun fr => { fr with memory := fr.memory ++ [m] })
      q.get_current_frame_index j q.frame_queue emptyFrame with h | h
  · rw [h]
  · rw [h]

theorem mod_cancel_eq_zero {c d N : Nat} (hc : c < N) (hd : d < N)
    (h : (c + d) % N = c) : d = 0 := by
  rcases Nat.lt_or_ge (c + d) N with hlt | hge
  · rw [Nat.mod_eq_of_lt hlt] at h
    omega
  · rw [Nat.mod_eq_sub_mod hge, Nat.mod_eq_of_lt (by omega)] at h
    omega

/-- A buffer handle held in no bucket is never destroyed by any later
tick, as long as it is not queued again. -/
theorem not_mem_runCollect (b : Nat) (ops : List CleanupOp) :
    ∀ q : CleanupQueue,
      (∀ j, b ∉ (q.frame_queue.getD j emptyFrame).buffers) →
      CleanupOp.queueBuf b ∉ ops →
      ∀ k, k < ((runCollect q ops).2).length → b ∉ (runCollect q ops).2.getD k [] := by
  induction ops with
  | nil =>
    intro q _ _ k hk
    simp [runCollect] at hk
  | cons op rest ih =>
    intro q hb hops k hk
    have hops' : CleanupOp.queueBuf b ∉ rest := fun h => hops (List.mem_cons_of_mem _ h)
    cases op with
    | queueBuf b' =>
      have hbb : b ≠ b' := by
        rintro rfl
        exact hops (List.mem_cons_self _ _)
      exact ih (q.queue_buffer b')
        (fun j hmem => hb j ((mem_queue_buffer_iff q b' b j hbb).mp hmem))
        hops' k hk
    | queueMem m =>
      exact ih (q.queue_memory m)
        (fun j => by rw [buffers_queue_memory]; exact hb j)
        hops' k hk
    | tick =>
      have hb' : ∀ j, b ∉ (((q.tick).1.frame_queue.getD j emptyFrame)).buffers := by
        intro j
        by_cases hj : j = q.current_frame_index
        · subst hj
          rcases getD_listModify_cases (fun _ => emptyFrame) q.current_frame_index
              q.current_frame_index q.frame_queue emptyFrame with h | h
          · have heq : (q.tick).1.frame_queue.getD q.current_frame_index emptyFrame =
                q.frame_queue.getD q.current_frame_index emptyFrame := h
            rw [heq]
            exact hb _
          · have heq : (q.tick).1.frame_queue.getD q.current_frame_index emptyFrame =
                emptyFrame := h
            rw [heq]
            simp [emptyFrame]
        · rw [tick_bucket_other q j hj]
          exact hb j
      cases k with
      | zero =>
        have hgd : (runCollect q (CleanupOp.tick :: rest)).2.getD 0 [] =
            (q.frame_queue.getD q.current_frame_index emptyFrame).buffers := rfl
        rw [hgd]
        exact hb _
      | succ k' =>
        have hlen : (runCollect q (CleanupOp.tick :: rest)).2.length =
            (runCollect (q.tick).1 rest).2.length + 1 := rfl
        have hgd : (runCollect q (CleanupOp.tick :: rest)).2.getD (k' + 1) [] =
            (runCollect (q.tick).1 rest).2.getD k' [] := rfl
        rw [hgd]
        exact ih (q.tick).1 hb' hops' k' (by omega)

/-- Key invariant: if `b` sits exactly in bucket `p`, and the current
slot reaches `p` after exactly `d` more ticks, then among all the
destruction events produced by any operation sequence (not re-queueing
`b`), `b` appears exactly in the one produced by the `(d+1)`-th tick. -/
theorem mem_runCollect_iff (b : Nat) (ops : List CleanupOp) :
    ∀ (q : CleanupQueue) (p d : Nat),
      q.current_frame_index < q.num_frames →
      p < q.num_frames →
      d < q.num_frames →
      (q.current_frame_index + d) % q.num_frames = p →
      b ∈ (q.frame_queue.getD p emptyFrame).buffers →
      (∀ j, j ≠ p → b ∉ (q.frame_queue.getD j emptyFrame).buffers) →
      CleanupOp.queueBuf b ∉ ops →
      ∀ k, k < ((runCollect q ops).2).length →
        (b ∈ (runCollect q ops).2.getD k [] ↔ k = d) := by
  induction ops with
  | nil =>
    intro q p d _ _ _ _ _ _ _ k hk
    simp [runCollect] at hk
  | cons op rest ih =>
    intro q p d hc hp hd hpd hb huniq hops k hk
    have hops' : CleanupOp.queueBuf b ∉ rest := fun h => hops (List.mem_cons_of_mem _ h)
    cases op with
    | queueBuf b' =>
      have hbb : b ≠ b' := by
        rintro rfl
        exact hops (List.mem_cons_self _ _)
      exact ih (q.queue_buffer b') p d
        (by rw [CleanupQueue.queue_buffer_current, CleanupQueue.queue_buffer_num_frames]
            exact hc)
        (by rw [CleanupQueue.queue_buffer_num_frames]; exact hp)
        (by rw [CleanupQueue.queue_buffer_num_frames]; exact hd)
        (by rw [CleanupQueue.queue_buffer_current, CleanupQueue.queue_buffer_num_frames]
            exact hpd)
        ((mem_queue_buffer_iff q b' b p hbb).mpr hb)
        (fun j hj hmem => huniq j hj ((mem_queue_buffer_iff q b' b j hbb).mp hmem))
        hops' k hk
    | queueMem m =>
      exact ih (q.queue_memory m) p d
        (by rw [CleanupQueue.queue_memory_current, CleanupQueue.queue_memory_num_frames]
            exact hc)
        (by rw [CleanupQueue.queue_memory_num_frames]; exact hp)
        (by rw [CleanupQueue.queue_memory_num_frames]; exact hd)
        (by rw [CleanupQueue.queue_memory_current, CleanupQueue.queue_memory_num_frames]
            exact hpd)
        (by rw [buffers_queue_memory]; exact hb)
        (fun j hj => by rw [buffers_queue_memory]; exact huniq j hj)
        hops' k hk
    | tick =>
      have hN : 0 < q.num_frames := by omega
      by_cases hcp : q.current_frame_index = p
      · have hd0 : d = 0 := by
          apply mod_cancel_eq_zero hc hd
          rw [hpd, hcp]
        subst hd0
        cases k with
        | zero =>
          have hgd : (runCollect q (CleanupOp.tick :: rest)).2.getD 0 [] =
              (q.frame_queue.getD q.current_frame_index emptyFrame).buffers := rfl
          rw [hgd, hcp]
          simpa using hb
        | succ k' =>
          have hlen : (runCollect q (CleanupOp.tick :: rest)).2.length =
              (runCollect (q.tick).1 rest).2.length + 1 := rfl
          have hgd : (runCollect q (CleanupOp.tick :: rest)).2.getD (k' + 1) [] =
              (runCollect (q.tick).1 rest).2.getD k' [] := rfl
          rw [hgd]
          have hnone : ∀ j, b ∉ (((q.tick).1.frame_queue.getD j emptyFrame)).buffers := by
            intro j
            by_cases hj : j = q.current_frame_index
            · subst hj
              rw [tick_bucket_self q hc]
              simp [emptyFrame]
            · rw [tick_bucket_other q j hj]
              exact huniq j (by rw [← hcp]; exact hj)
          have hnomem := not_mem_runCollect b rest (q.tick).1 hnone hops' k' (by omega)
          exact iff_of_false hnomem (by omega)
      · have hdne : d ≠ 0 := by
          rintro rfl
          rw [Nat.add_zero, Nat.mod_eq_of_lt hc] at hpd
          exact hcp hpd
        cases k with
        | zero =>
          have hgd : (runCollect q (CleanupOp.tick :: rest)).2.getD 0 [] =
              (q.frame_queue.getD q.current_frame_index emptyFrame).buffers := rfl
          rw [hgd]
          exact iff_of_false (huniq _ hcp) (by omega)
        | succ k' =>
          have hlen : (runCollect q (CleanupOp.tick :: rest)).2.length =
              (runCollect (q.tick).1 rest).2.length + 1 := rfl
          have hgd : (runCollect q (CleanupOp.tick :: rest)).2.getD (k' + 1) [] =
              (runCollect (q.tick).1 rest).2.getD k' [] := rfl
          rw [hgd]
          have hiff := ih (q.tick).1 p (d - 1)
            (by rw [CleanupQueue.tick_num_frames, tick_current]
                exact Nat.mod_lt _ hN)
            (by rw [CleanupQueue.tick_num_frames]; exact hp)
            (by rw [CleanupQueue.tick_num_frames]; omega)
            (by rw [CleanupQueue.tick_num_frames, tick_current, Nat.mod_add_mod]
                have harith : q.current_frame_index + 1 + (d - 1) =
                    q.current_frame_index + d := by omega
                rw [harith]
                exact hpd)
            (by rw [tick_bucket_other q p (fun h => hcp h.symm)]
                exact hb)
            (by intro j hj
                by_cases hjc : j = q.current_frame_index
                · subst hjc
                  rw [tick_bucket_self q hc]
                  simp [emptyFrame]
                · rw [tick_bucket_other q j hjc]
                  exact huniq j hj)
            hops' k' (by omega)
          rw [hiff]
          omega

/-- Claim C1: a buffer queued while slot `s` is current lands in the
bucket at index `(s - 1 + N) mod N`, survives the next `N - 1` ticks, and
is destroyed by exactly the `N`-th tick after queuing — for every
operation sequence in between (that does not re-queue the same handle). -/
theorem cleanup_queue_delay (q : CleanupQueue) (b : Nat) (ops : List CleanupOp)
    (hc : q.current_frame_index < q.num_frames)
    (hb : ∀ j, j < q.num_frames → b ∉ (q.frame_queue.getD j emptyFrame).buffers)
    (hops : CleanupOp.queueBuf b ∉ ops) :
    ((q.queue_buffer b).frame_queue.getD
        ((q.current_frame_index + q.num_frames - 1) % q.num_frames) emptyFrame).buffers =
      (q.frame_queue.getD
        ((q.current_frame_index + q.num_frames - 1) % q.num_frames) emptyFrame).buffers
        ++ [b] ∧
    ∀ k, k < ((runCollect (q.queue_buffer b) ops).2).length →
      (b ∈ (runCollect (q.queue_buffer b) ops).2.getD k [] ↔ k = q.num_frames - 1) := by
  have hN : 0 < q.num_frames := by omega
  have hp : (q.current_frame_index + q.num_frames - 1) % q.num_frames < q.num_frames :=
    Nat.mod_lt _ hN
  have hplace : ((q.queue_buffer b).frame_queue.getD
      ((q.current_frame_index + q.num_frames - 1) % q.num_frames) emptyFrame).buffers =
      (q.frame_queue.getD
        ((q.current_frame_index + q.num_frames - 1) % q.num_frames) emptyFrame).buffers
        ++ [b] := by
    have h := getD_listModify_self (fun fr => { fr with buffers := fr.buffers ++ [b] })
      q.get_current_frame_index q.frame_queue emptyFrame hp
    exact congrArg QueuedFrame.buffers h
  refine ⟨hplace, ?_⟩
  have key := mem_runCollect_iff b ops (q.queue_buffer b)
    ((q.current_frame_index + q.num_frames - 1) % q.num_frames) (q.num_frames - 1)
    (by rw [CleanupQueue.queue_buffer_current, CleanupQueue.queue_buffer_num_frames]
        exact hc)
    (by rw [CleanupQueue.queue_buffer_num_frames]; exact hp)
    (by rw [CleanupQueue.queue_buffer_num_frames]; omega)
    (by rw [CleanupQueue.queue_buffer_current, CleanupQueue.queue_buffer_num_frames]
        have harith : q.current_frame_index + (q.num_frames - 1) =
            q.current_frame_index + q.num_frames - 1 := by omega
        rw [harith])
    (by rw [hplace]
        simp)
    (by intro j hj
        have hunch : (q.queue_buffer b).frame_queue.getD j emptyFrame =
            q.frame_queue.getD j emptyFrame :=
          getD_listModify_other _ _ _ _ _ hj
        rw [hunch]
        by_cases hjN : j < q.num_frames
        · exact hb j hjN
        · have hlen : q.num_frames = q.frame_queue.length := rfl
          rw [getD_of_length_le _ _ _ (by omega)]
          simp [emptyFrame])
    hops
  intro k hk
  exact key k hk

theorem cleanup_queue_delay_witness :
    ((({ frame_queue := [{ buffers := [], memory := [] }, { buffers := [], memory := [] }],
         current_frame_index := 0 } : CleanupQueue).queue_buffer 5).frame_queue.getD 1
        emptyFrame).buffers = [5] ∧
    5 ∈ (runCollect
        (({ frame_queue := [{ buffers := [], memory := [] }, { buffers := [], memory := [] }],
            current_frame_index := 0 } : CleanupQueue).queue_buffer 5)
        [CleanupOp.tick, CleanupOp.tick]).2.getD 1 [] ∧
    5 ∉ (runCollect
        (({ frame_queue := [{ buffers := [], memory := [] }, { buffers := [], memory := [] }],
            current_frame_index := 0 } : CleanupQueue).queue_buffer 5)
        [CleanupOp.tick, CleanupOp.tick]).2.getD 0 [] := by
  have h := cleanup_queue_delay
    { frame_queue := [{ buffers := [], memory := [] }, { buffers := [], memory := [] }],
      current_frame_index := 0 } 5 [CleanupOp.tick, CleanupOp.tick]
    (by decide) (by decide) (by decide)
  refine ⟨h.1, (h.2 1 (by decide)).mpr rfl, ?_⟩
  intro hmem
  have h01 := (h.2 0 (by decide)).mp hmem
  exact absurd h01 (by decide)

/-! ## Claim theorems: frame-loop staleness recovery -/

theorem noAdjacentAcquires_cons_rebuild (tr : List LoopEvent)
    (h : noAdjacentAcquires tr = true) :
    noAdjacentAcquires (LoopEvent.rebuild :: tr) = true := by
  cases tr with
  | nil => rfl
  | cons e tr' => cases e <;> exact h

theorem acquireLoopCore_noAdjacent (results : List AcquireResult) :
    noAdjacentAcquires (acquireLoopCore results).1 = true := by
  induction results with
  | nil => rfl
  | cons r rest ih =>
    cases r with
    | ok i => rfl
    | errOutOfDate => exact noAdjacentAcquires_cons_rebuild _ ih
    | errSuboptimal => exact noAdjacentAcquires_cons_rebuild _ ih
    | otherError => rfl

theorem acquireLoopCore_not_fatal (results : List AcquireResult)
    (h : ∀ r ∈ results, r.isOtherError = false) :
    (acquireLoopCore results).2 ≠ LoopOutcome.fatal := by
  induction results with
  | nil => decide
  | cons r rest ih =>
    have hrest : ∀ x ∈ rest, x.isOtherError = false :=
      fun x hx => h x (List.mem_cons_of_mem _ hx)
    cases r with
    | ok i => intro hcontra; cases hcontra
    | errOutOfDate => exact ih hrest
    | errSuboptimal => exact ih hrest
    | otherError =>
      have hself := h AcquireResult.otherError (List.mem_cons_self _ _)
      simp [AcquireResult.isOtherError] at hself

theorem acquireLoopCore_fatal (stales rest : List AcquireResult)
    (h : ∀ r ∈ stales, r.isStale = true) :
    (acquireLoopCore (stales ++ AcquireResult.otherError :: rest)).2 =
      LoopOutcome.fatal := by
  induction stales with
  | nil => rfl
  | cons r stales ih =>
    have hr := h r (List.mem_cons_self _ _)
    have hrest : ∀ x ∈ stales, x.isStale = true :=
      fun x hx => h x (List.mem_cons_of_mem _ hx)
    cases r with
    | ok i => simp [AcquireResult.isStale] at hr
    | errOutOfDate => exact ih hrest
    | errSuboptimal => exact ih hrest
    | otherError => simp [AcquireResult.isStale] at hr

/-- Claim C7: a stale/suboptimal acquire or present result never makes
the frame loop fatal (it only triggers a swapchain rebuild); a non-stale
acquire or present error is fatal; and the acquire-loop trace never holds
two consecutive acquire attempts without a rebuild in between. -/
theorem frame_loop_staleness :
    (∀ (flag : Bool) (results : List AcquireResult),
      (∀ r ∈ results, r.isOtherError = false) →
      (acquireLoop flag results).2 ≠ LoopOutcome.fatal) ∧
    (∀ (flag : Bool) (stales rest : List AcquireResult),
      (∀ r ∈ stales, r.isStale = true) →
      (acquireLoop flag (stales ++ AcquireResult.otherError :: rest)).2 =
        LoopOutcome.fatal) ∧
    (∀ (flag : Bool) (results : List AcquireResult),
      noAdjacentAcquires (acquireLoop flag results).1 = true) ∧
    (∀ flag : Bool,
      handlePresent flag PresentResult.okSuboptimal = some true ∧
      handlePresent flag PresentResult.errOutOfDate = some true ∧
      handlePresent flag PresentResult.errSuboptimal = some true ∧
      handlePresent flag PresentResult.otherError = none) := by
  refine ⟨?_, ?_, ?_, fun flag => ⟨rfl, rfl, rfl, rfl⟩⟩
  · intro flag results h
    cases flag with
    | false => exact acquireLoopCore_not_fatal results h
    | true => exact acquireLoopCore_not_fatal results h
  · intro flag stales rest h
    cases flag with
    | false => exact acquireLoopCore_fatal stales rest h
    | true => exact acquireLoopCore_fatal stales rest h
  · intro flag results
    cases flag with
    | false => exact acquireLoopCore_noAdjacent results
    | true => exact noAdjacentAcquires_cons_rebuild _ (acquireLoopCore_noAdjacent results)

theorem frame_loop_staleness_witness :
    (acquireLoop false [AcquireResult.errSuboptimal, AcquireResult.ok 0]).2 ≠
      LoopOutcome.fatal ∧
    (acquireLoop false [AcquireResult.errOutOfDate, AcquireResult.otherError]).2 =
      LoopOutcome.fatal ∧
    noAdjacentAcquires
      (acquireLoop true [AcquireResult.errSuboptimal, AcquireResult.ok 1]).1 = true ∧
    handlePresent false PresentResult.otherError = none := by
  refine ⟨?_, ?_, ?_, (frame_loop_staleness.2.2.2 false).2.2.2⟩
  · exact frame_loop_staleness.1 false _ (by decide)
  · exact frame_loop_staleness.2.1 false [AcquireResult.errOutOfDate] [] (by decide)
  · exact frame_loop_staleness.2.2.1 true _

end Favilla
